import Mathlib

/-!
Shallow embedding of the catalog subsystem of PiFinder
(src/python/PiFinder/catalogs.py) and proofs about it.

Conventions used throughout:
* Python lists become Lean `List`s.
* Python dicts become association lists (`List (κ × α)`) with
  insert-or-overwrite update (`pyDictUpd`) and first-match lookup
  (`pyLookup`); a dict comprehension is a left fold of updates, which
  reproduces the "later assignment wins" semantics of CPython dicts.
* Python ints that are only ever non-negative in the modelled code are
  `Nat`; values that can go negative (list step indices) are `Int`.
* Fallible operations (exceptions) return `Except PyErr _`.
* Floats that only flow through comparisons are modelled as `ℚ`.
-/

namespace PiFinder

/-- Python exception kinds that the modelled code can raise. -/
inductive PyErr where
  | attributeError
  | typeError
  | keyError
  | indexError
  | stopIteration
  | assertionError
deriving DecidableEq, Repr

/-- Model of the `mag` field of a composite object: a value that
`float(...)` either coerces to a number or rejects with
`ValueError`/`TypeError`. -/
inductive MagVal where
  | num (q : ℚ)
  | nonNumeric
deriving DecidableEq, Repr

/-- Model of `PiFinder.composite_object.CompositeObject`: the fields of the
merged (object row | catalog row) record that catalogs.py reads. -/
structure CompositeObject where
  object_id : Nat
  id : Nat
  sequence : Nat
  ra : ℚ
  dec : ℚ
  mag : MagVal
  obj_type : String
  catalog_code : String
  logged : Bool
  names : List String
deriving DecidableEq, Repr

/-- Insert-or-overwrite update of an association list, reproducing Python
dict item assignment: an existing key keeps its position and gets the new
value, a new key is appended. -/
def pyDictUpd {κ α : Type} [DecidableEq κ] : List (κ × α) → κ → α → List (κ × α)
  | [], k, v => [(k, v)]
  | (k', v') :: rest, k, v =>
      if k' = k then (k, v) :: rest else (k', v') :: pyDictUpd rest k v

/-- First-match lookup in an association list (Python dict lookup; keys are
unique in any dict built with `pyDictUpd`, so first match is the match). -/
def pyLookup {κ α : Type} [DecidableEq κ] : List (κ × α) → κ → Option α
  | [], _ => none
  | (k', v) :: rest, k => if k' = k then some v else pyLookup rest k

/-- Keys of an association list. -/
def pyKeys {κ α : Type} (d : List (κ × α)) : List κ := d.map Prod.fst

/-- Model of the dict comprehension
{f(obj): i for i, obj in enumerate(objects)} (counting from i), used by
CatalogBase._update_id_to_pos and _update_sequence_to_pos. -/
def buildPosFrom (f : CompositeObject → Nat) (i : Nat) :
    List CompositeObject → List (Nat × Nat) → List (Nat × Nat)
  | [], d => d
  | o :: rest, d => buildPosFrom f (i + 1) rest (pyDictUpd d (f o) i)

/-- Position index of a list of objects keyed by f, starting at position 0. -/
def buildPos (f : CompositeObject → Nat) (objs : List CompositeObject) :
    List (Nat × Nat) :=
  buildPosFrom f 0 objs []

/-- Key of `catalog_base_sequence_sort`, the default sort key of
CatalogBase (Catalog never overrides it). -/
def catalog_base_sequence_sort (obj : CompositeObject) : Nat := obj.sequence

/-- Stable insertion of one object into a sequence-sorted list. -/
def insertBySeq (o : CompositeObject) : List CompositeObject → List CompositeObject
  | [] => [o]
  | x :: xs =>
      if o.sequence < x.sequence then o :: x :: xs else x :: insertBySeq o xs

/-- Model of `self.objects.sort(key=self.sort)` with the default sequence
key: a stable sort by ascending sequence. -/
def sortBySeq (l : List CompositeObject) : List CompositeObject :=
  l.foldr insertBySeq []

/-- Model of PiFinder.catalogs.Catalog (and its base class CatalogBase):
the object list, the two position indices, plus the filtering state added
by the subclass.  The float timestamp `last_filtered` is omitted (no claim
mentions it); `catalog_filter` is carried separately where needed.
Aliasing between `objects` and `filtered_objects` (both name the same list
object right after `Catalog.__init__`) is modelled at value level here and
by an explicit reference model (`RefCatalog`) below. -/
structure Catalog where
  catalog_code : String
  max_sequence : Nat
  desc : String
  objects : List CompositeObject
  id_to_pos : List (Nat × Nat)
  sequence_to_pos : List (Nat × Nat)
  filtered_objects : List CompositeObject
deriving DecidableEq, Repr

namespace Catalog

/-- Model of `Catalog.__init__`: empty object list (the Python base class
leaves the two index attributes unset until the first add; the empty dict
models that state) and `filtered_objects = self.get_objects()`, i.e. the
object list itself. -/
def init (catalog_code : String) (max_sequence : Nat) (desc : String) : Catalog :=
  { catalog_code := catalog_code
    max_sequence := max_sequence
    desc := desc
    objects := []
    id_to_pos := []
    sequence_to_pos := []
    filtered_objects := [] }

/-- Model of `CatalogBase.add_object`: append, re-sort by the sequence key,
rebuild both indices. -/
def add_object (c : Catalog) (obj : CompositeObject) : Catalog :=
  let objs := sortBySeq (c.objects ++ [obj])
  { c with
      objects := objs
      id_to_pos := buildPos (fun o => o.id) objs
      sequence_to_pos := buildPos (fun o => o.sequence) objs }

/-- Model of `CatalogBase.add_objects`: append all, then one re-sort and
one rebuild of both indices. -/
def add_objects (c : Catalog) (objects : List CompositeObject) : Catalog :=
  let objs := sortBySeq (c.objects ++ objects)
  { c with
      objects := objs
      id_to_pos := buildPos (fun o => o.id) objs
      sequence_to_pos := buildPos (fun o => o.sequence) objs }

/-- Model of `CatalogBase.get_object_by_id`; a missing key (Python
KeyError / IndexError) becomes `none`. -/
def get_object_by_id (c : Catalog) (id : Nat) : Option CompositeObject :=
  match pyLookup c.id_to_pos id with
  | some pos => c.objects.get? pos
  | none => none

/-- Model of `CatalogBase.get_object_by_sequence`; a missing key becomes
`none`. -/
def get_object_by_sequence (c : Catalog) (sequence : Nat) : Option CompositeObject :=
  match pyLookup c.sequence_to_pos sequence with
  | some pos => c.objects.get? pos
  | none => none

/-- Model of `CatalogBase.get_objects`. -/
def get_objects (c : Catalog) : List CompositeObject := c.objects

/-- Model of `CatalogBase.get_count`. -/
def get_count (c : Catalog) : Nat := c.objects.length

end Catalog

/-- Modelled from the spec: `PiFinder.calc_utils.FastAltAz` is not under
src/, only constructed and called there.  It is the altitude transform
derived from the observer's location and time; the actual ra/dec-to-altitude
computation is passed around as an explicit function (`AltFn`) wherever the
modelled code would call `radec_to_altaz`. -/
structure FastAltAz where
  lat : ℚ
  lon : ℚ
  dt : Nat
deriving DecidableEq, Repr

/-- Altitude computation of a FastAltAz transform at an (ra, dec) position,
kept abstract because calc_utils is outside src/. -/
def AltFn : Type := FastAltAz → ℚ → ℚ → ℚ

/-- Model of the shared sky-position state read by CatalogFilter: the
solution, location and datetime snapshots, each possibly absent (falsy). -/
structure SharedState where
  solution : Option Nat
  location : Option (ℚ × ℚ)
  datetime : Option Nat
deriving DecidableEq, Repr

/-- Model of the observed-state selector ("Any" / "Yes" / "No"). -/
inductive ObservedSel where
  | any
  | yes
  | no
deriving DecidableEq, Repr

/-- Model of PiFinder.catalogs.CatalogFilter.  Each sentinel string "None"
(or ["None"]) that disables a check becomes `none`; `fast_aa` starts as
`none` (the Python class attribute is None). -/
structure CatalogFilter where
  magnitude_filter : Option ℚ
  type_filter : Option (List String)
  altitude_filter : Option ℚ
  observed_filter : ObservedSel
  fast_aa : Option FastAltAz
deriving DecidableEq, Repr

namespace CatalogFilter

/-- Model of `CatalogFilter.calc_fast_aa`: when solution, location and
datetime are all present it stores a FastAltAz built from the location and
time in `self.fast_aa`; otherwise it only logs a warning.  Its Python
return value is None in every path (there is no return statement) — that
matters in `apply` below. -/
def calc_fast_aa (f : CatalogFilter) (shared_state : SharedState) : CatalogFilter :=
  match shared_state.location, shared_state.datetime, shared_state.solution with
  | some (lat, lon), some dt, some _ =>
      { f with fast_aa := some { lat := lat, lon := lon, dt := dt } }
  | _, _, _ => f

/-- Model of `CatalogFilter.apply_filter`: altitude check (only when the
altitude filter is enabled and `fast_aa` is set), then magnitude with the
non-numeric fallback 99, then type, then observed state. -/
def apply_filter (alt : AltFn) (f : CatalogFilter) (obj : CompositeObject) : Bool :=
  -- check altitude
  let altReject :=
    match f.altitude_filter, f.fast_aa with
    | some floor, some aa => decide (alt aa obj.ra obj.dec < floor)
    | _, _ => false
  if altReject then false
  else
    -- first try to get object mag to float; ValueError/TypeError => 99
    let obj_mag : ℚ :=
      match obj.mag with
      | MagVal.num q => q
      | MagVal.nonNumeric => 99
    match f.magnitude_filter with
    | some m => if obj_mag ≥ m then false else apply_filter_rest f obj
    | none => apply_filter_rest f obj
where
  /-- Type and observed-state checks of `apply_filter` (the part after the
  magnitude check). -/
  apply_filter_rest (f : CatalogFilter) (obj : CompositeObject) : Bool :=
    let typeReject :=
      match f.type_filter with
      | some types => decide (obj.obj_type ∉ types)
      | none => false
    if typeReject then false
    else
      match f.observed_filter with
      | ObservedSel.any => true
      | ObservedSel.yes => obj.logged
      | ObservedSel.no => !obj.logged

/-- Model of `CatalogFilter.apply`: executes `calc_fast_aa` (which stores
the transform as a side effect) and then assigns its Python return value —
always None — back to `self.fast_aa`, so the filtering below always runs
with `fast_aa = None`.  Returns the updated filter state and the kept
objects. -/
def apply (alt : AltFn) (f : CatalogFilter) (shared_state : SharedState)
    (objects : List CompositeObject) : CatalogFilter × List CompositeObject :=
  let f1 := calc_fast_aa f shared_state
  let f2 := { f1 with fast_aa := none }
  (f2, objects.filter (apply_filter alt f2))

end CatalogFilter

/-- Big-endian decimal digits of n; empty for 0. -/
def pyDigits (n : Nat) : List Nat :=
  if h : n = 0 then [] else pyDigits (n / 10) ++ [n % 10]
termination_by n
decreasing_by exact Nat.div_lt_self (Nat.pos_of_ne_zero h) (by norm_num)

/-- Model of Python `str` on a non-negative int, as the big-endian list of
its decimal digits ("0" for 0). -/
def pyRepr (n : Nat) : List Nat :=
  if n = 0 then [0] else pyDigits n

/-- Model of Python `int` on a decimal digit string (big-endian digit
list): left fold accumulating value. -/
def valDigits (l : List Nat) : Nat :=
  l.foldl (fun acc d => acc * 10 + d) 0

/-- Model of PiFinder.catalogs.CatalogDesignator: the catalog name, entered
object number and the fixed keypad width.  The rendered `field` string is a
pure function of these (recomputed by every mutator) and is not modelled
separately. -/
structure CatalogDesignator where
  catalog_name : String
  object_number : Nat
  width : Nat
deriving DecidableEq, Repr

namespace CatalogDesignator

/-- Model of `CatalogDesignator.__init__`: number 0, width =
len(str(max_sequence)). -/
def init (catalog_name : String) (max_sequence : Nat) : CatalogDesignator :=
  { catalog_name := catalog_name
    object_number := 0
    width := (pyRepr max_sequence).length }

/-- Model of `CatalogDesignator.append_number`: concatenate the decimal
texts, drop the leading character when the result is longer than the
width, and store the resulting value. -/
def append_number (d : CatalogDesignator) (number : Nat) : CatalogDesignator :=
  let number_str := pyRepr d.object_number ++ pyRepr number
  let number_str := if number_str.length > d.width then number_str.tail else number_str
  { d with object_number := valDigits number_str }

/-- Model of `CatalogDesignator.set_number`. -/
def set_number (d : CatalogDesignator) (number : Nat) : CatalogDesignator :=
  { d with object_number := number }

/-- Iterated `append_number`, for reasoning about keypad entry sequences. -/
def append_all (d : CatalogDesignator) (ds : List Nat) : CatalogDesignator :=
  ds.foldl append_number d

end CatalogDesignator

/-- Model of PiFinder.catalogs.Catalogs: the catalog list plus the lazily
built code-to-catalog dict (`catalog_dict`), empty when not built. -/
structure Catalogs where
  catalogs : List Catalog
  catalog_dict : List (String × Catalog)
deriving DecidableEq, Repr

namespace Catalogs

/-- Dict comprehension {catalog.catalog_code: catalog for catalog in
catalogs}. -/
def buildDict (catalogs : List Catalog) : List (String × Catalog) :=
  catalogs.foldl (fun d c => pyDictUpd d c.catalog_code c) []

/-- Model of `Catalogs.get_dict`: rebuild the cached dict when it is falsy
(empty), then return it; the possibly-updated registry state is threaded
through. -/
def get_dict (s : Catalogs) : Catalogs × List (String × Catalog) :=
  if s.catalog_dict = [] then
    let d := buildDict s.catalogs
    ({ s with catalog_dict := d }, d)
  else
    (s, s.catalog_dict)

/-- Model of `Catalogs.get_names`. -/
def get_names (s : Catalogs) : Catalogs × List String :=
  let (s1, d) := get_dict s
  (s1, pyKeys d)

/-- Model of `Catalogs.add`: a duplicate catalog code is only logged; a new
code appends the catalog and clears the cached dict. -/
def add (s : Catalogs) (catalog : Catalog) : Catalogs :=
  let (s1, d) := get_dict s
  if catalog.catalog_code ∈ pyKeys d then
    s1
  else
    { s1 with catalogs := s1.catalogs ++ [catalog], catalog_dict := [] }

end Catalogs

/-- Model of Python `list.index`: position of the first occurrence (the
callers in next_object guard it with a membership test; an absent key,
which would raise ValueError, is mapped to the list length). -/
def listIndex (k : Nat) : List Nat → Nat
  | [] => 0
  | x :: xs => if x = k then 0 else listIndex k xs + 1

/-- Model of Python list subscription `l[i]` with an int index: negative
indices count from the end, out-of-range raises IndexError. -/
def pyGetInt (l : List Nat) (i : Int) : Except PyErr Nat :=
  if 0 ≤ i then
    match l.get? i.toNat with
    | some v => .ok v
    | none => .error .indexError
  else
    let j := (-i).toNat
    if j ≤ l.length then
      match l.get? (l.length - j) with
      | some v => .ok v
      | none => .error .indexError
    else .error .indexError

/-- Model of the CatalogTracker state that `next_object`,
`set_current_object` and `get_current_object` touch, restricted to the
current catalog: those methods read and write only the current catalog's
entry of `object_tracker` and of `designator_tracker` (whose designator
they mutate through `set_number`), so the other catalogs' slots are
omitted. -/
structure TrackerNav where
  cat : Catalog
  current_key : Option Nat
  designator_number : Nat
deriving DecidableEq, Repr

namespace TrackerNav

/-- Model of `CatalogTracker.set_current_object` in the default
(current-catalog) case: store the key and set the designator to the number
(falsy None or 0 both render as 0). -/
def set_current_object (st : TrackerNav) (object_number : Option Nat) : TrackerNav :=
  { st with
      current_key := object_number
      designator_number :=
        match object_number with
        | none => 0
        | some n => if n = 0 then 0 else n }

/-- Model of `CatalogTracker.get_current_object`: none when no key is
tracked, otherwise `get_object_by_sequence` on the current catalog, whose
KeyError/IndexError on a stale key propagates. -/
def get_current_object (st : TrackerNav) : Except PyErr (Option CompositeObject) :=
  match st.current_key with
  | none => .ok none
  | some k =>
    match pyLookup st.cat.sequence_to_pos k with
    | some pos =>
      match st.cat.objects.get? pos with
      | some o => .ok (some o)
      | none => .error .indexError
    | none => .error .keyError

/-- Tail shared by all branches of `next_object`:
`self.set_current_object(next_key); return self.get_current_object()`. -/
def next_object_finish (st : TrackerNav) (next_key : Option Nat) :
    Except PyErr (TrackerNav × Option CompositeObject) :=
  let st2 := set_current_object st next_key
  match get_current_object st2 with
  | .ok o => .ok (st2, o)
  | .error e => .error e

/-- Branch of `next_object` taken when there is no current object (or its
key left the active list): jump to the first (direction 1) or last
element. -/
def next_object_fresh (st : TrackerNav) (object_ids : List Nat) (direction : Int) :
    Except PyErr (TrackerNav × Option CompositeObject) :=
  let next_index : Int := if direction = 1 then 0 else (object_ids.length : Int) - 1
  match pyGetInt object_ids next_index with
  | .ok next_key => next_object_finish { st with designator_number := next_key } (some next_key)
  | .error e => .error e

/-- Model of `CatalogTracker.next_object`: step by `direction` through the
active (filtered or full) list, keyed by sequence; stepping past either
end clears the tracked object and resets the designator to 0. -/
def next_object (st : TrackerNav) (direction : Int) (filtered : Bool) :
    Except PyErr (TrackerNav × Option CompositeObject) :=
  let objs := if filtered then st.cat.filtered_objects else st.cat.objects
  let object_ids := objs.map (fun x => x.sequence)
  match st.current_key with
  | none => next_object_fresh st object_ids direction
  | some current_key =>
    if current_key ∈ object_ids then
      let current_index : Int := (listIndex current_key object_ids : Nat)
      let next_index : Int := current_index + direction
      if next_index = -1 ∨ (object_ids.length : Int) ≤ next_index then
        next_object_finish { st with designator_number := 0 } none
      else
        match pyGetInt object_ids (next_index % (object_ids.length : Int)) with
        | .ok next_key => next_object_finish { st with designator_number := next_key } (some next_key)
        | .error e => .error e
    else next_object_fresh st object_ids direction

end TrackerNav

/-- Model of the precedence test of `CatalogTracker._deduplicate`: the new
object replaces the existing entry when it is catalogued "M" and the
existing one is not, or it is catalogued "NGC" and the existing one is
neither "M" nor "NGC". -/
def beats (existing_obj obj : CompositeObject) : Bool :=
  decide ((obj.catalog_code = "M" ∧ existing_obj.catalog_code ≠ "M") ∨
    (obj.catalog_code = "NGC" ∧ existing_obj.catalog_code ∉ ["M", "NGC"]))

/-- Model of the generator expression
next(i for i, existing_obj in enumerate(res) if existing_obj.object_id ==
obj.object_id): index of the first entry with the given object_id. -/
def findFirstIdx (v : Nat) : List CompositeObject → Option Nat
  | [] => none
  | e :: rest =>
      if e.object_id = v then some 0 else (findFirstIdx v rest).map (fun i => i + 1)

/-- Loop of `CatalogTracker._deduplicate` over the ranked results, carrying
the output list and the seen-id set (as the list of ids in insertion
order).  The `next(...)` generator call raises StopIteration when no kept
entry carries the id (unreachable from the initial state, proved below). -/
def dedupLoop : List CompositeObject → List CompositeObject → List Nat →
    Except PyErr (List CompositeObject)
  | [], res, _ => .ok res
  | obj :: rest, res, seen =>
    if obj.object_id ∈ seen then
      match findFirstIdx obj.object_id res with
      | some i =>
          let existing_obj := res.getD i obj
          dedupLoop rest (if beats existing_obj obj then res.set i obj else res) seen
      | none => .error .stopIteration
    else
      dedupLoop rest (res ++ [obj]) (seen ++ [obj.object_id])

/-- Model of `CatalogTracker._deduplicate`. -/
def dedup (unfiltered_results : List CompositeObject) : Except PyErr (List CompositeObject) :=
  dedupLoop unfiltered_results [] []

/-- Occurrences in l whose object_id is v. -/
def matching (v : Nat) (l : List CompositeObject) : List CompositeObject :=
  l.filter (fun o => o.object_id == v)

/-- Result of playing the later duplicates dups against a kept entry e in
order, each one replacing the current entry exactly when `beats` says so. -/
def upgrade (e : CompositeObject) (dups : List CompositeObject) : CompositeObject :=
  dups.foldl (fun cur o => if beats cur o then o else cur) e

/-- Specification of deduplication, written from the claim: one entry per
object_id, at the position of the first occurrence, equal to that first
occurrence upgraded by its later duplicates, with the relative order of
kept entries unchanged. -/
def dedupSpec : List CompositeObject → List CompositeObject
  | [] => []
  | x :: xs =>
      upgrade x (matching x.object_id xs) ::
        dedupSpec (xs.filter (fun o => !(o.object_id == x.object_id)))
termination_by l => l.length
decreasing_by
  simp only [List.length_cons]
  exact Nat.lt_succ_of_le (List.length_filter_le _ _)

/-- Model of the registry-level CatalogTracker state used by
`set_current_catalog`, `add_foreign_catalog` and `get_closest_objects`:
the Catalogs registry, the current catalog (name and value), the
per-catalog designator and tracked-object maps, and the pushed target
delivered by `shared_state.ui_state().target()`. -/
structure TrackerReg where
  catalogs : Catalogs
  current_catalog_name : String
  current_catalog : Catalog
  designator_tracker : List (String × CatalogDesignator)
  object_tracker : List (String × Option Nat)
  push_target : CompositeObject
deriving DecidableEq, Repr

namespace TrackerReg

/-- Model of `CatalogTracker.dict` (`self.catalogs.get_dict()`), threading
the registry's cache mutation through the tracker state. -/
def dict (st : TrackerReg) : TrackerReg × List (String × Catalog) :=
  let (s1, d) := Catalogs.get_dict st.catalogs
  ({ st with catalogs := s1 }, d)

/-- Model of the constructor call `Catalog("PUSH", 1, "Skysafari push",
{1: ui_state.target()})` made by add_foreign_catalog: `Catalog.__init__`
accepts three arguments (code, max_sequence, desc), so passing this fourth
positional argument makes CPython raise TypeError before any body runs. -/
def catalogInit4 (_code : String) (_max_sequence : Nat) (_desc : String)
    (_catalog_objs : List (Nat × CompositeObject)) : Except PyErr Catalog :=
  .error .typeError

/-- Model of `CatalogTracker.add_foreign_catalog`: build the single-object
"PUSH" catalog (a call that raises TypeError, see `catalogInit4`), add it
to the registry, and install a designator and a tracked-object slot.  The
debug prints preceding the constructor call only read state and are
elided. -/
def add_foreign_catalog (st : TrackerReg) (catalog_name : String) :
    Except PyErr TrackerReg := do
  let c ← catalogInit4 "PUSH" 1 "Skysafari push" [(1, st.push_target)]
  let catalogs1 := Catalogs.add st.catalogs c
  .ok { st with
          catalogs := catalogs1
          designator_tracker :=
            pyDictUpd st.designator_tracker catalog_name
              (CatalogDesignator.init catalog_name 1)
          object_tracker := pyDictUpd st.object_tracker catalog_name none }

/-- Model of `CatalogTracker.set_current_catalog`: synthesize a foreign
catalog when the name is unknown, assert it is now present, and make it
current. -/
def set_current_catalog (st : TrackerReg) (catalog_name : String) :
    Except PyErr TrackerReg := do
  let (st1, d1) := dict st
  let st2 ← if catalog_name ∈ pyKeys d1 then pure st1
            else add_foreign_catalog st1 catalog_name
  let (st3, d3) := dict st2
  if catalog_name ∈ pyKeys d3 then
    let (st4, d4) := dict st3
    match pyLookup d4 catalog_name with
    | some c => .ok { st4 with current_catalog := c, current_catalog_name := catalog_name }
    | none => .error .keyError
  else .error .assertionError

/-- Model of `CatalogTracker._select_catalogs`: the current catalog when no
names are given; otherwise `self.catalogs.get(key)` for each name — but the
Catalogs class has no method named get, so a non-empty name list raises
AttributeError on the first element. -/
def select_catalogs (st : TrackerReg) (catalogs : Option (List String)) :
    Except PyErr (List Catalog) :=
  match catalogs with
  | none => .ok [st.current_catalog]
  | some [] => .ok []
  | some (_ :: _) => .error .attributeError

end TrackerReg

/-- Model of the call `catalog.filtered_objects.values()` in
get_closest_objects: `Catalog.filtered_objects` is a Python list, and
lists have no attribute named values, so the call raises AttributeError. -/
def listValues (_l : List CompositeObject) : Except PyErr (List CompositeObject) :=
  .error .attributeError

/-- Flattening loop of get_closest_objects over the selected catalogs. -/
def flattenFiltered : List Catalog → Except PyErr (List CompositeObject)
  | [] => .ok []
  | c :: rest => do
      let vs ← listValues c.filtered_objects
      let vrest ← flattenFiltered rest
      .ok (vs ++ vrest)

/-- Distance on (ra, dec) pairs in degrees, kept abstract: the source
converts to radians with numpy and queries an sklearn BallTree with the
haversine metric, all library code outside src/. -/
def DistFn : Type := ℚ × ℚ → ℚ × ℚ → ℚ

/-- Insertion of an object into a list ordered by distance to the query. -/
def insertByDist (dist : DistFn) (q : ℚ × ℚ) (o : CompositeObject) :
    List CompositeObject → List CompositeObject
  | [] => [o]
  | x :: xs =>
      if dist (o.ra, o.dec) q ≤ dist (x.ra, x.dec) q then o :: x :: xs
      else x :: insertByDist dist q o xs

/-- Candidates sorted by ascending distance to the query. -/
def sortByDist (dist : DistFn) (q : ℚ × ℚ) (l : List CompositeObject) :
    List CompositeObject :=
  l.foldr (insertByDist dist q) []

/-- Model of the k-nearest-neighbour query `objects_bt.query(query, k=n)`
followed by the index lookup into the flattened list: the n candidates
nearest to the query in ascending distance order. -/
def kNearest (dist : DistFn) (q : ℚ × ℚ) (n : Nat) (l : List CompositeObject) :
    List CompositeObject :=
  (sortByDist dist q l).take n

/-- Model of `CatalogTracker.get_closest_objects`: select catalogs, flatten
their filtered objects, clamp n, query the n nearest and deduplicate. -/
def get_closest_objects (dist : DistFn) (st : TrackerReg) (ra dec : ℚ) (n : Nat)
    (catalogs : Option (List String)) : Except PyErr (List CompositeObject) := do
  let catalog_list ← TrackerReg.select_catalogs st catalogs
  let catalog_list_flat ← flattenFiltered catalog_list
  let n := if catalog_list_flat.length < n then catalog_list_flat.length else n
  let results := kNearest dist (ra, dec) n catalog_list_flat
  let deduplicated ← dedup results
  .ok deduplicated

/-- Heap of list cells, for the reference-semantics model of the aliasing
between `objects` and `filtered_objects`. -/
abbrev Heap : Type := List (List CompositeObject)

/-- Allocation of a fresh list cell. -/
def heapAlloc (h : Heap) (v : List CompositeObject) : Heap × Nat :=
  (h ++ [v], h.length)

/-- Contents of a list cell. -/
def heapRead (h : Heap) (p : Nat) : List CompositeObject :=
  h.getD p []

/-- In-place mutation of a list cell. -/
def heapWrite (h : Heap) (p : Nat) (v : List CompositeObject) : Heap :=
  h.set p v

/-- Reference-level view of a Catalog: which heap cell `self.objects`
names and which one `self.filtered_objects` names (the indices are elided
here; the value-level model above covers them). -/
structure RefCatalog where
  objectsPtr : Nat
  filteredPtr : Nat
deriving DecidableEq, Repr

/-- Reference-level model of `Catalog.__init__`: the base constructor binds
`self.objects` to a fresh empty list and `self.filtered_objects =
self.get_objects()` binds the second name to the very same list object. -/
def refCatalogInit (h : Heap) : Heap × RefCatalog :=
  let (h1, p) := heapAlloc h []
  (h1, { objectsPtr := p, filteredPtr := p })

/-- Reference-level model of `add_object`: mutate the objects cell in place
(append then sort). -/
def refAddObject (h : Heap) (c : RefCatalog) (obj : CompositeObject) : Heap :=
  heapWrite h c.objectsPtr (sortBySeq (heapRead h c.objectsPtr ++ [obj]))

/-- Reference-level model of `add_objects`. -/
def refAddObjects (h : Heap) (c : RefCatalog) (objs : List CompositeObject) : Heap :=
  heapWrite h c.objectsPtr (sortBySeq (heapRead h c.objectsPtr ++ objs))

/-- Reference-level model of `filter_objects`: build a fresh list of the
kept objects and rebind `self.filtered_objects` to it. -/
def refFilterObjects (h : Heap) (c : RefCatalog) (keep : CompositeObject → Bool) :
    Heap × RefCatalog :=
  let (h1, q) := heapAlloc h ((heapRead h c.objectsPtr).filter keep)
  (h1, { c with filteredPtr := q })

/-- One add call, for quantifying over sequences of additions. -/
inductive AddOp where
  | one (o : CompositeObject)
  | many (os : List CompositeObject)
deriving DecidableEq, Repr

/-- Application of a sequence of add calls to a catalog. -/
def applyAdds : Heap → RefCatalog → List AddOp → Heap
  | h, _, [] => h
  | h, c, AddOp.one o :: rest => applyAdds (refAddObject h c o) c rest
  | h, c, AddOp.many os :: rest => applyAdds (refAddObjects h c os) c rest

/-- Value of a sequence of add calls, computed without the heap. -/
def applyAddsPure : List CompositeObject → List AddOp → List CompositeObject
  | l, [] => l
  | l, AddOp.one o :: rest => applyAddsPure (sortBySeq (l ++ [o])) rest
  | l, AddOp.many os :: rest => applyAddsPure (sortBySeq (l ++ os)) rest

/-! Concrete instances used by witnesses and counterexamples. -/

/-- Sample object builder for witnesses (positions and magnitudes fixed,
identity fields varying). -/
def sampleObj (oid idv seqv : Nat) (code : String) : CompositeObject :=
  { object_id := oid, id := idv, sequence := seqv, ra := 10, dec := 20,
    mag := MagVal.num 5, obj_type := "Gx", catalog_code := code,
    logged := false, names := [] }

/-- Altitude function that computes 0 everywhere (for witnesses where the
altitude value is irrelevant). -/
def altZero : AltFn := fun _ _ _ => 0

/-- Altitude function that computes −10 everywhere (below any positive
floor). -/
def altNeg : AltFn := fun _ _ _ => (-10 : ℚ)

/-- Sky-position context with solution, location and datetime all
present. -/
def ssFull : SharedState :=
  { solution := some 1, location := some (10, 20), datetime := some 5 }

/-- Filter with only the altitude floor (30 degrees) enabled. -/
def altFilter30 : CatalogFilter :=
  { magnitude_filter := none, type_filter := none, altitude_filter := some 30,
    observed_filter := ObservedSel.any, fast_aa := none }

/-- Filter with only the magnitude ceiling (10) enabled. -/
def filterMag10 : CatalogFilter :=
  { magnitude_filter := some 10, type_filter := none, altitude_filter := none,
    observed_filter := ObservedSel.any, fast_aa := none }

/-- Object whose mag value float() cannot coerce. -/
def badMagObj : CompositeObject :=
  { sampleObj 1 1 5 "NGC" with mag := MagVal.nonNumeric }

/-- Externally pushed target object. -/
def pushObj : CompositeObject := sampleObj 99 99 1 "PUSH"

/-- Tracker whose registry does not contain the code "PUSH". -/
def regNoPush : TrackerReg :=
  { catalogs := ⟨[Catalog.init "NGC" 9999 "d"], []⟩
    current_catalog_name := "NGC"
    current_catalog := Catalog.init "NGC" 9999 "d"
    designator_tracker := [("NGC", CatalogDesignator.init "NGC" 9999)]
    object_tracker := [("NGC", none)]
    push_target := pushObj }

/-- Tracker whose registry already contains the code "PUSH". -/
def regWithPush : TrackerReg :=
  { catalogs := ⟨[Catalog.init "NGC" 9999 "d",
      Catalog.init "PUSH" 1 "Skysafari push"], []⟩
    current_catalog_name := "NGC"
    current_catalog := Catalog.init "NGC" 9999 "d"
    designator_tracker := [("NGC", CatalogDesignator.init "NGC" 9999),
      ("PUSH", CatalogDesignator.init "PUSH" 1)]
    object_tracker := [("NGC", none), ("PUSH", none)]
    push_target := pushObj }

/-- Three-object catalog with sequences 5, 12, 47. -/
def navCat : Catalog :=
  (Catalog.init "NGC" 9999 "d").add_objects
    [sampleObj 1 1 5 "NGC", sampleObj 2 2 12 "NGC", sampleObj 3 3 47 "NGC"]

/-- The same catalog with its filtered list populated (all three pass). -/
def navCatF : Catalog := { navCat with filtered_objects := navCat.objects }

/-- Navigation state with no tracked object. -/
def navA : TrackerNav := { cat := navCatF, current_key := none, designator_number := 0 }

/-- Navigation state tracking the last object (sequence 47). -/
def navB : TrackerNav := { cat := navCatF, current_key := some 47, designator_number := 47 }

/-! Lemmas and claim theorems. -/

theorem pyLookup_pyDictUpd_self {κ α : Type} [DecidableEq κ]
    (d : List (κ × α)) (k : κ) (v : α) :
    pyLookup (pyDictUpd d k v) k = some v := by
  induction d with
  | nil => simp [pyDictUpd, pyLookup]
  | cons hd tl ih =>
    by_cases h : hd.1 = k
    · simp [pyDictUpd, pyLookup, h]
    · simpa [pyDictUpd, pyLookup, h] using ih

theorem pyLookup_pyDictUpd_ne {κ α : Type} [DecidableEq κ]
    (d : List (κ × α)) (k q : κ) (v : α) (h : k ≠ q) :
    pyLookup (pyDictUpd d k v) q = pyLookup d q := by
  induction d with
  | nil => simp [pyDictUpd, pyLookup, h, Ne.symm h]
  | cons hd tl ih =>
    by_cases hk : hd.1 = k
    · simp [pyDictUpd, pyLookup, hk, h, Ne.symm h]
    · by_cases hq : hd.1 = q
      · simp [pyDictUpd, pyLookup, hk, hq, Ne.symm h]
      · simpa [pyDictUpd, pyLookup, hk, hq] using ih

theorem pyKeys_pyDictUpd {κ α : Type} [DecidableEq κ]
    (d : List (κ × α)) (k : κ) (v : α) (q : κ) :
    q ∈ pyKeys (pyDictUpd d k v) ↔ q ∈ pyKeys d ∨ q = k := by
  induction d with
  | nil => simp [pyDictUpd, pyKeys, eq_comm]
  | cons hd tl ih =>
    obtain ⟨k1, v1⟩ := hd
    by_cases hk : k1 = k
    · subst hk
      simp only [pyDictUpd, if_pos rfl, pyKeys, List.map_cons, List.mem_cons,
        reduceIte]
      tauto
    · simp only [pyDictUpd, if_neg hk, pyKeys, List.map_cons, List.mem_cons]
      rw [show (List.map Prod.fst (pyDictUpd tl k v) : List κ) = pyKeys (pyDictUpd tl k v) from rfl]
      rw [ih]
      tauto

theorem buildPosFrom_lookup_not_mem (f : CompositeObject → Nat) (q : Nat) :
    ∀ (l : List CompositeObject) (i : Nat) (d : List (Nat × Nat)),
    q ∉ l.map f →
    pyLookup (buildPosFrom f i l d) q = pyLookup d q := by
  intro l
  induction l with
  | nil => intro i d _; rfl
  | cons o rest ih =>
    intro i d hq
    simp only [List.map_cons, List.mem_cons, not_or] at hq
    rw [buildPosFrom, ih (i + 1) _ hq.2, pyLookup_pyDictUpd_ne _ _ _ _ (fun h => hq.1 h.symm)]

theorem buildPosFrom_lookup (f : CompositeObject → Nat) :
    ∀ (l : List CompositeObject) (j i : Nat) (d : List (Nat × Nat))
    (x : CompositeObject),
    (l.map f).Nodup →
    (∀ o ∈ l, f o ∉ pyKeys d) →
    l.get? j = some x →
    pyLookup (buildPosFrom f i l d) (f x) = some (i + j) := by
  intro l
  induction l with
  | nil => intro j i d x _ _ hj; simp [List.get?] at hj
  | cons o rest ih =>
    intro j i d x hnd hdisj hj
    simp only [List.map_cons, List.nodup_cons] at hnd
    match j with
    | 0 =>
      have hx : o = x := by simpa [List.get?] using hj
      subst hx
      rw [buildPosFrom, buildPosFrom_lookup_not_mem f (f o) rest (i + 1) _ hnd.1,
        pyLookup_pyDictUpd_self]
      simp
    | j + 1 =>
      simp only [List.get?] at hj
      rw [buildPosFrom, ih j (i + 1) _ x hnd.2 ?_ hj]
      · congr 1
        omega
      · intro o2 ho2
        rw [pyKeys_pyDictUpd]
        push_neg
        refine ⟨hdisj o2 (List.mem_cons_of_mem _ ho2), ?_⟩
        intro hc
        exact hnd.1 (hc ▸ (List.mem_map_of_mem f ho2))

theorem buildPos_lookup (f : CompositeObject → Nat) (l : List CompositeObject)
    (j : Nat) (x : CompositeObject) (hnd : (l.map f).Nodup)
    (hj : l.get? j = some x) :
    pyLookup (buildPos f l) (f x) = some j := by
  have := buildPosFrom_lookup f l j 0 [] x hnd (by intro o _; simp [pyKeys]) hj
  simpa [buildPos] using this

theorem insertBySeq_perm (o : CompositeObject) (l : List CompositeObject) :
    (insertBySeq o l).Perm (o :: l) := by
  induction l with
  | nil => simp [insertBySeq]
  | cons x xs ih =>
    rw [insertBySeq]
    by_cases h : o.sequence < x.sequence
    · simp [h]
    · simp only [if_neg h]
      exact (ih.cons x).trans (List.Perm.swap o x xs)

theorem sortBySeq_perm (l : List CompositeObject) : (sortBySeq l).Perm l := by
  induction l with
  | nil => rfl
  | cons x xs ih =>
    exact (insertBySeq_perm x (sortBySeq xs)).trans (ih.cons x)

theorem mem_sortBySeq {x : CompositeObject} {l : List CompositeObject} :
    x ∈ sortBySeq l ↔ x ∈ l :=
  (sortBySeq_perm l).mem_iff

theorem get_object_by_id_rebuilt (c : Catalog)
    (hidx : c.id_to_pos = buildPos (fun o => o.id) c.objects)
    (hnd : (c.objects.map (fun o => o.id)).Nodup)
    (x : CompositeObject) (hx : x ∈ c.objects) :
    c.get_object_by_id x.id = some x := by
  obtain ⟨j, hj⟩ := List.get?_of_mem hx
  have hl := buildPos_lookup (fun o => o.id) c.objects j x hnd hj
  simp only [Catalog.get_object_by_id, hidx]
  simp only at hl
  rw [hl]
  exact hj

theorem get_object_by_sequence_rebuilt (c : Catalog)
    (hidx : c.sequence_to_pos = buildPos (fun o => o.sequence) c.objects)
    (hnd : (c.objects.map (fun o => o.sequence)).Nodup)
    (x : CompositeObject) (hx : x ∈ c.objects) :
    c.get_object_by_sequence x.sequence = some x := by
  obtain ⟨j, hj⟩ := List.get?_of_mem hx
  have hl := buildPos_lookup (fun o => o.sequence) c.objects j x hnd hj
  simp only [Catalog.get_object_by_sequence, hidx]
  simp only at hl
  rw [hl]
  exact hj

theorem add_object_id_to_pos (c : Catalog) (obj : CompositeObject) :
    (c.add_object obj).id_to_pos = buildPos (fun o => o.id) (c.add_object obj).objects := rfl

theorem add_object_sequence_to_pos (c : Catalog) (obj : CompositeObject) :
    (c.add_object obj).sequence_to_pos =
      buildPos (fun o => o.sequence) (c.add_object obj).objects := rfl

theorem add_objects_id_to_pos (c : Catalog) (batch : List CompositeObject) :
    (c.add_objects batch).id_to_pos =
      buildPos (fun o => o.id) (c.add_objects batch).objects := rfl

theorem add_objects_sequence_to_pos (c : Catalog) (batch : List CompositeObject) :
    (c.add_objects batch).sequence_to_pos =
      buildPos (fun o => o.sequence) (c.add_objects batch).objects := rfl

/-- C7: after any add_object or add_objects call on a catalog whose objects
then have pairwise-distinct ids and pairwise-distinct sequences, looking up
any current object by its id or by its sequence returns that object: both
indices are rebuilt consistently with the sorted object list. -/
theorem claim_C7 (cat : Catalog) (obj : CompositeObject)
    (batch : List CompositeObject) (x y : CompositeObject)
    (hA : ((cat.add_object obj).objects.map (fun o => o.id)).Nodup)
    (hB : ((cat.add_object obj).objects.map (fun o => o.sequence)).Nodup)
    (hC : ((cat.add_objects batch).objects.map (fun o => o.id)).Nodup)
    (hD : ((cat.add_objects batch).objects.map (fun o => o.sequence)).Nodup)
    (hx : x ∈ (cat.add_object obj).objects)
    (hy : y ∈ (cat.add_objects batch).objects) :
    (cat.add_object obj).get_object_by_id x.id = some x ∧
    (cat.add_object obj).get_object_by_sequence x.sequence = some x ∧
    (cat.add_objects batch).get_object_by_id y.id = some y ∧
    (cat.add_objects batch).get_object_by_sequence y.sequence = some y :=
  ⟨get_object_by_id_rebuilt _ (add_object_id_to_pos cat obj) hA x hx,
   get_object_by_sequence_rebuilt _ (add_object_sequence_to_pos cat obj) hB x hx,
   get_object_by_id_rebuilt _ (add_objects_id_to_pos cat batch) hC y hy,
   get_object_by_sequence_rebuilt _ (add_objects_sequence_to_pos cat batch) hD y hy⟩

/-- Witness for C7 at a concrete catalog of three objects. -/
theorem claim_C7_witness :
    ((Catalog.init "NGC" 9999 "d").add_object (sampleObj 1 1 5 "NGC")).get_object_by_id
        (sampleObj 1 1 5 "NGC").id = some (sampleObj 1 1 5 "NGC") ∧
    ((Catalog.init "NGC" 9999 "d").add_object (sampleObj 1 1 5 "NGC")).get_object_by_sequence
        (sampleObj 1 1 5 "NGC").sequence = some (sampleObj 1 1 5 "NGC") ∧
    ((Catalog.init "NGC" 9999 "d").add_objects
        [sampleObj 2 2 12 "NGC", sampleObj 3 3 47 "NGC"]).get_object_by_id
        (sampleObj 3 3 47 "NGC").id = some (sampleObj 3 3 47 "NGC") ∧
    ((Catalog.init "NGC" 9999 "d").add_objects
        [sampleObj 2 2 12 "NGC", sampleObj 3 3 47 "NGC"]).get_object_by_sequence
        (sampleObj 3 3 47 "NGC").sequence = some (sampleObj 3 3 47 "NGC") :=
  claim_C7 (Catalog.init "NGC" 9999 "d") (sampleObj 1 1 5 "NGC")
    [sampleObj 2 2 12 "NGC", sampleObj 3 3 47 "NGC"]
    (sampleObj 1 1 5 "NGC") (sampleObj 3 3 47 "NGC")
    (by decide) (by decide) (by decide) (by decide) (by decide) (by decide)

theorem pyDigits_def (n : Nat) :
    pyDigits n = if n = 0 then [] else pyDigits (n / 10) ++ [n % 10] := by
  rw [pyDigits]
  by_cases h : n = 0 <;> simp [h]

theorem pyDigits_digit_lt (n : Nat) : ∀ x ∈ pyDigits n, x < 10 := by
  induction n using Nat.strong_induction_on with
  | _ n ih =>
    intro x hx
    rw [pyDigits_def] at hx
    by_cases h : n = 0
    · simp [h] at hx
    · simp only [if_neg h, List.mem_append, List.mem_singleton] at hx
      rcases hx with hx | hx
      · exact ih (n / 10) (Nat.div_lt_self (Nat.pos_of_ne_zero h) (by norm_num)) x hx
      · subst hx; exact Nat.mod_lt n (by norm_num)

theorem pyRepr_digit_lt (n : Nat) : ∀ x ∈ pyRepr n, x < 10 := by
  intro x hx
  rw [pyRepr] at hx
  by_cases h : n = 0
  · simp [h] at hx; omega
  · exact pyDigits_digit_lt n x (by simpa [h] using hx)

theorem pyRepr_length_pos (n : Nat) : 1 ≤ (pyRepr n).length := by
  rw [pyRepr]
  by_cases h : n = 0
  · simp [h]
  · simp only [if_neg h]
    rw [pyDigits_def, if_neg h]
    simp

theorem valDigits_foldl (L : List Nat) :
    ∀ (a : Nat), L.foldl (fun acc d => acc * 10 + d) a = a * 10 ^ L.length + valDigits L := by
  induction L with
  | nil => intro a; simp [valDigits]
  | cons d rest ih =>
    intro a
    simp only [List.foldl_cons, List.length_cons, valDigits]
    rw [ih (a * 10 + d), ih (0 * 10 + d)]
    ring

theorem valDigits_lt (L : List Nat) (hL : ∀ x ∈ L, x < 10) :
    valDigits L < 10 ^ L.length := by
  induction L with
  | nil => simp [valDigits]
  | cons d rest ih =>
    have hd : d < 10 := hL d (List.mem_cons_self d rest)
    have hrest := ih (fun x hx => hL x (List.mem_cons_of_mem d hx))
    simp only [valDigits, List.foldl_cons, List.length_cons]
    rw [valDigits_foldl rest (0 * 10 + d)]
    have h1 : (0 * 10 + d) * 10 ^ rest.length + valDigits rest <
        (d + 1) * 10 ^ rest.length := by
      have := Nat.add_lt_add_left hrest (d * 10 ^ rest.length)
      simpa [Nat.add_mul, Nat.zero_mul] using this
    calc (0 * 10 + d) * 10 ^ rest.length + valDigits rest
        < (d + 1) * 10 ^ rest.length := h1
      _ ≤ 10 * 10 ^ rest.length := Nat.mul_le_mul_right _ (by omega)
      _ = 10 ^ (rest.length + 1) := by ring

theorem pyDigits_length_le (n : Nat) :
    ∀ (k : Nat), n < 10 ^ k → (pyDigits n).length ≤ k := by
  induction n using Nat.strong_induction_on with
  | _ n ih =>
    intro k hn
    rw [pyDigits_def]
    by_cases h : n = 0
    · simp [h]
    · simp only [if_neg h, List.length_append, List.length_singleton]
      have hk : 1 ≤ k := by
        by_contra hc
        push_neg at hc
        interval_cases k
        omega
      have hdiv : n / 10 < 10 ^ (k - 1) := by
        rw [Nat.div_lt_iff_lt_mul (by norm_num : 0 < 10)]
        calc n < 10 ^ k := hn
          _ = 10 ^ (k - 1) * 10 := by
              rw [← pow_succ]
              congr 1
              omega
      have := ih (n / 10) (Nat.div_lt_self (Nat.pos_of_ne_zero h) (by norm_num))
        (k - 1) hdiv
      omega

theorem pyRepr_length_le (n k : Nat) (hk : 1 ≤ k) (hn : n < 10 ^ k) :
    (pyRepr n).length ≤ k := by
  rw [pyRepr]
  by_cases h : n = 0
  · simpa [h] using hk
  · simp only [if_neg h]
    exact pyDigits_length_le n k hn

theorem pyRepr_single (k : Nat) (hk : k < 10) : pyRepr k = [k] := by
  interval_cases k <;> simp [pyRepr, pyDigits_def]

theorem append_number_width (d : CatalogDesignator) (k : Nat) :
    (d.append_number k).width = d.width := rfl

theorem append_number_invariant (d : CatalogDesignator) (k : Nat) (hk : k < 10)
    (hw : 1 ≤ d.width) (hlen : (pyRepr d.object_number).length ≤ d.width) :
    (pyRepr (d.append_number k).object_number).length ≤ d.width := by
  have hsingle := pyRepr_single k hk
  have hdig : ∀ x ∈ pyRepr d.object_number ++ pyRepr k, x < 10 := by
    intro x hx
    rcases List.mem_append.mp hx with hx | hx
    · exact pyRepr_digit_lt _ x hx
    · exact pyRepr_digit_lt _ x hx
  simp only [CatalogDesignator.append_number]
  by_cases hgt : (pyRepr d.object_number ++ pyRepr k).length > d.width
  · simp only [if_pos hgt]
    apply pyRepr_length_le _ _ hw
    have hlt := valDigits_lt (pyRepr d.object_number ++ pyRepr k).tail
      (fun x hx => hdig x (List.mem_of_mem_tail hx))
    have hlentail : (pyRepr d.object_number ++ pyRepr k).tail.length ≤ d.width := by
      rw [List.length_tail, List.length_append, hsingle]
      simp only [List.length_singleton]
      omega
    calc valDigits (pyRepr d.object_number ++ pyRepr k).tail
        < 10 ^ (pyRepr d.object_number ++ pyRepr k).tail.length := hlt
      _ ≤ 10 ^ d.width := Nat.pow_le_pow_right (by norm_num) hlentail
  · simp only [if_neg hgt]
    apply pyRepr_length_le _ _ hw
    have hlt := valDigits_lt (pyRepr d.object_number ++ pyRepr k) hdig
    calc valDigits (pyRepr d.object_number ++ pyRepr k)
        < 10 ^ (pyRepr d.object_number ++ pyRepr k).length := hlt
      _ ≤ 10 ^ d.width := Nat.pow_le_pow_right (by norm_num) (by omega)

theorem append_all_invariant (ds : List Nat) :
    ∀ (d : CatalogDesignator), (∀ k ∈ ds, k < 10) → 1 ≤ d.width →
    (pyRepr d.object_number).length ≤ d.width →
    (pyRepr (d.append_all ds).object_number).length ≤ d.width ∧
      (d.append_all ds).width = d.width := by
  induction ds with
  | nil => intro d _ _ hlen; exact ⟨hlen, rfl⟩
  | cons k rest ih =>
    intro d hds hw hlen
    have hk : k < 10 := hds k (List.mem_cons_self k rest)
    have hstep := append_number_invariant d k hk hw hlen
    have := ih (d.append_number k) (fun x hx => hds x (List.mem_cons_of_mem k hx))
      (by rw [append_number_width]; exact hw)
      (by rw [append_number_width]; exact hstep)
    simpa [CatalogDesignator.append_all, append_number_width] using this

/-- C6: a designator built from max_sequence m has width equal to the
decimal digit count of m (9999 gives 4); any keypad sequence of single
digits keeps the stored number at most width digits long (oldest digit
dropped), and entering 1,2,3,4,5 at width 4 yields 2345. -/
theorem claim_C6 (name : String) (m : Nat) (ds : List Nat)
    (hds : ∀ k ∈ ds, k < 10) :
    (CatalogDesignator.init name 9999).width = 4 ∧
    (pyRepr ((CatalogDesignator.init name m).append_all ds).object_number).length ≤
      (CatalogDesignator.init name m).width ∧
    ((CatalogDesignator.init name 9999).append_all [1, 2, 3, 4, 5]).object_number = 2345 := by
  refine ⟨by simp [CatalogDesignator.init, pyRepr, pyDigits_def], ?_,
    by simp [CatalogDesignator.append_all, CatalogDesignator.append_number,
      CatalogDesignator.init, pyRepr, pyDigits_def, valDigits]⟩
  have hw : 1 ≤ (CatalogDesignator.init name m).width := pyRepr_length_pos m
  have hlen : (pyRepr (CatalogDesignator.init name m).object_number).length ≤
      (CatalogDesignator.init name m).width := by
    simpa [CatalogDesignator.init, pyRepr] using hw
  exact (append_all_invariant ds (CatalogDesignator.init name m) hds hw hlen).1

theorem upgrade_nil (e : CompositeObject) : upgrade e [] = e := rfl

theorem upgrade_cons (e x : CompositeObject) (xs : List CompositeObject) :
    upgrade e (x :: xs) = upgrade (if beats e x then x else e) xs := rfl

theorem matching_nil (v : Nat) : matching v [] = [] := rfl

theorem matching_cons_eq (v : Nat) (x : CompositeObject) (h : x.object_id = v)
    (xs : List CompositeObject) : matching v (x :: xs) = x :: matching v xs := by
  simp [matching, List.filter_cons, h]

theorem matching_cons_ne (v : Nat) (x : CompositeObject) (h : x.object_id ≠ v)
    (xs : List CompositeObject) : matching v (x :: xs) = matching v xs := by
  simp [matching, List.filter_cons, h]

theorem dedupSpec_nil : dedupSpec [] = [] := by rw [dedupSpec]

theorem dedupSpec_cons (x : CompositeObject) (xs : List CompositeObject) :
    dedupSpec (x :: xs) =
      upgrade x (matching x.object_id xs) ::
        dedupSpec (xs.filter (fun o => !(o.object_id == x.object_id))) := by
  rw [dedupSpec]

theorem dedup_replace (obj : CompositeObject) (rest : List CompositeObject) :
    ∀ (res : List CompositeObject),
    (res.map (fun o => o.object_id)).Nodup →
    obj.object_id ∈ res.map (fun o => o.object_id) →
    ∃ i, findFirstIdx obj.object_id res = some i ∧
      ((if beats (res.getD i obj) obj then res.set i obj else res).map
          (fun o => o.object_id) = res.map (fun o => o.object_id)) ∧
      ((if beats (res.getD i obj) obj then res.set i obj else res).map
          (fun e => upgrade e (matching e.object_id rest)) =
        res.map (fun e => upgrade e (matching e.object_id (obj :: rest)))) := by
  intro res
  induction res with
  | nil => intro _ hmem; simp at hmem
  | cons e res2 ih =>
    intro hnd hmem
    simp only [List.map_cons, List.nodup_cons] at hnd
    by_cases he : e.object_id = obj.object_id
    · refine ⟨0, by simp [findFirstIdx, he], ?_, ?_⟩
      · simp only [List.getD_cons_zero, List.set_cons_zero]
        by_cases hb : beats e obj
        · rw [if_pos hb]
          simp only [List.map_cons, List.cons.injEq]
          exact ⟨he.symm, by simp⟩
        · rw [if_neg hb]
      · have htail : res2.map (fun x => upgrade x (matching x.object_id rest)) =
            res2.map (fun x => upgrade x (matching x.object_id (obj :: rest))) := by
          apply List.map_congr_left
          intro e2 he2
          have hne : obj.object_id ≠ e2.object_id := by
            intro hc
            exact hnd.1 (by rw [he, hc]; exact List.mem_map_of_mem _ he2)
          rw [matching_cons_ne _ _ hne]
        have hhead : upgrade e (matching e.object_id (obj :: rest)) =
            upgrade (if beats e obj then obj else e) (matching e.object_id rest) := by
          rw [matching_cons_eq _ _ he.symm, upgrade_cons]
        simp only [List.getD_cons_zero, List.set_cons_zero]
        by_cases hb : beats e obj
        · rw [if_pos hb]
          simp only [List.map_cons, List.cons.injEq]
          refine ⟨?_, htail⟩
          rw [hhead, if_pos hb, he]
        · rw [if_neg hb]
          simp only [List.map_cons, List.cons.injEq]
          refine ⟨?_, htail⟩
          rw [hhead, if_neg hb]
    · have hmem2 : obj.object_id ∈ res2.map (fun o => o.object_id) := by
        rcases List.mem_cons.mp hmem with hc | hc
        · exact absurd hc.symm he
        · exact hc
      obtain ⟨i, h1, h2, h3⟩ := ih hnd.2 hmem2
      have hne : obj.object_id ≠ e.object_id := fun hc => he hc.symm
      refine ⟨i + 1, by simp [findFirstIdx, he, h1], ?_, ?_⟩
      · simp only [List.getD_cons_succ, List.set_cons_succ]
        by_cases hb : beats (List.getD res2 i obj) obj
        · rw [if_pos hb] at h2 ⊢
          simp only [List.map_cons, List.cons.injEq]
          exact ⟨by simp, h2⟩
        · rw [if_neg hb]
      · simp only [List.getD_cons_succ, List.set_cons_succ]
        by_cases hb : beats (List.getD res2 i obj) obj
        · rw [if_pos hb] at h3 ⊢
          simp only [List.map_cons, List.cons.injEq]
          exact ⟨by rw [matching_cons_ne _ _ hne], h3⟩
        · rw [if_neg hb] at h3 ⊢
          simp only [List.map_cons, List.cons.injEq]
          exact ⟨by rw [matching_cons_ne _ _ hne], h3⟩

theorem matching_filter (v : Nat) (p : CompositeObject → Bool)
    (hp : ∀ o : CompositeObject, o.object_id = v → p o = true) :
    ∀ (l : List CompositeObject), matching v (l.filter p) = matching v l := by
  intro l
  induction l with
  | nil => rfl
  | cons x xs ih =>
    by_cases hx : x.object_id = v
    · rw [List.filter_cons, hp x hx]
      simp only [if_pos]
      rw [matching_cons_eq _ _ hx, matching_cons_eq _ _ hx, ih]
    · by_cases hpx : p x = true
      · rw [List.filter_cons, hpx]
        simp only [if_pos]
        rw [matching_cons_ne _ _ hx, matching_cons_ne _ _ hx, ih]
      · rw [List.filter_cons]
        simp only [Bool.not_eq_true] at hpx
        rw [hpx]
        simp only [Bool.false_eq_true, if_false]
        rw [matching_cons_ne _ _ hx, ih]

theorem dedupLoop_spec (l : List CompositeObject) :
    ∀ (res : List CompositeObject),
    (res.map (fun o => o.object_id)).Nodup →
    dedupLoop l res (res.map (fun o => o.object_id)) =
      .ok (res.map (fun e => upgrade e (matching e.object_id l)) ++
        dedupSpec (l.filter
          (fun o => !(decide (o.object_id ∈ res.map (fun o => o.object_id)))))) := by
  induction l with
  | nil =>
    intro res _
    simp [dedupLoop, dedupSpec_nil, matching_nil, upgrade_nil]
  | cons obj l2 ih =>
    intro res hnd
    rw [dedupLoop]
    by_cases hmem : obj.object_id ∈ res.map (fun o => o.object_id)
    · rw [if_pos hmem]
      obtain ⟨i, hfind, hoid, hmap⟩ := dedup_replace obj l2 res hnd hmem
      rw [hfind]
      have hnd2 : (((if beats (res.getD i obj) obj then res.set i obj
          else res)).map (fun o => o.object_id)).Nodup := by
        rw [hoid]; exact hnd
      have hrec := ih _ hnd2
      rw [hoid] at hrec
      dsimp only
      rw [hrec, hmap]
      have hobj : (!(decide (obj.object_id ∈ res.map (fun o => o.object_id)))) = false := by
        simp [hmem]
      rw [List.filter_cons, hobj]
      simp only [Bool.false_eq_true, if_false]
    · rw [if_neg hmem]
      have hnd2 : ((res ++ [obj]).map (fun o => o.object_id)).Nodup := by
        simp only [List.map_append, List.map_cons, List.map_nil]
        refine List.Nodup.append hnd (by simp) ?_
        intro a ha hb
        simp only [List.mem_singleton] at hb
        subst hb
        exact hmem ha
      have hseen : res.map (fun o => o.object_id) ++ [obj.object_id] =
          (res ++ [obj]).map (fun o => o.object_id) := by simp
      rw [hseen, ih _ hnd2]
      have heq1 : res.map (fun e => upgrade e (matching e.object_id (obj :: l2))) =
          res.map (fun e => upgrade e (matching e.object_id l2)) := by
        apply List.map_congr_left
        intro e hein
        have hne : obj.object_id ≠ e.object_id := by
          intro hc
          exact hmem (hc ▸ List.mem_map_of_mem _ hein)
        rw [matching_cons_ne _ _ hne]
      have hobj : (!(decide (obj.object_id ∈ res.map (fun o => o.object_id)))) = true := by
        simp [hmem]
      have heq2 : upgrade obj (matching obj.object_id
          (l2.filter (fun o =>
            !(decide (o.object_id ∈ res.map (fun o => o.object_id)))))) =
          upgrade obj (matching obj.object_id l2) := by
        rw [matching_filter]
        intro o ho
        simp [ho, hmem]
      have heq3 : ((l2.filter (fun o =>
            !(decide (o.object_id ∈ res.map (fun o => o.object_id))))).filter
              (fun o => !(o.object_id == obj.object_id))) =
          l2.filter (fun o =>
            !(decide (o.object_id ∈ (res ++ [obj]).map (fun o => o.object_id)))) := by
        rw [List.filter_filter]
        apply List.filter_congr
        intro o _
        by_cases h1 : o.object_id ∈ res.map (fun o => o.object_id) <;>
          by_cases h2 : o.object_id = obj.object_id <;> simp [h1, h2]
      rw [List.filter_cons, hobj]
      simp only [if_pos]
      rw [dedupSpec_cons, heq1, heq2, heq3]
      simp [List.map_append]

theorem upgrade_object_id : ∀ (dups : List CompositeObject) (e : CompositeObject),
    (∀ o ∈ dups, o.object_id = e.object_id) →
    (upgrade e dups).object_id = e.object_id := by
  intro dups
  induction dups with
  | nil => intro e _; rfl
  | cons x xs ih =>
    intro e hall
    rw [upgrade_cons]
    by_cases hb : beats e x
    · rw [if_pos hb]
      have hx : x.object_id = e.object_id := hall x (by simp)
      rw [ih x (fun o ho => (hall o (by simp [ho])).trans hx.symm)]
      exact hx
    · rw [if_neg hb]
      exact ih e (fun o ho => hall o (by simp [ho]))

theorem mem_matching {o : CompositeObject} {v : Nat} {l : List CompositeObject}
    (h : o ∈ matching v l) : o.object_id = v := by
  simp only [matching, List.mem_filter, beq_iff_eq] at h
  exact h.2

theorem dedupSpec_head_oid (x : CompositeObject) (xs : List CompositeObject) :
    (upgrade x (matching x.object_id xs)).object_id = x.object_id :=
  upgrade_object_id _ x (fun _ ho => mem_matching ho)

theorem dedupSpec_oid_mem : ∀ (n : Nat) (l : List CompositeObject), l.length ≤ n →
    ∀ o ∈ dedupSpec l, o.object_id ∈ l.map (fun x => x.object_id) := by
  intro n
  induction n with
  | zero =>
    intro l hl o ho
    have hnil : l = [] := List.length_eq_zero.mp (Nat.le_zero.mp hl)
    subst hnil
    rw [dedupSpec_nil] at ho
    simp at ho
  | succ n ih =>
    intro l hl o ho
    match l with
    | [] => rw [dedupSpec_nil] at ho; simp at ho
    | x :: xs =>
      have hxs : xs.length ≤ n := by simp at hl; omega
      rw [dedupSpec_cons] at ho
      rcases List.mem_cons.mp ho with h | h
      · simp only [List.map_cons, List.mem_cons]
        exact Or.inl (by rw [h, dedupSpec_head_oid])
      · have hlen : (xs.filter (fun o => !(o.object_id == x.object_id))).length ≤ n :=
          le_trans (List.length_filter_le _ _) hxs
        have hmem := ih _ hlen o h
        simp only [List.mem_map] at hmem
        obtain ⟨y, hy, hyeq⟩ := hmem
        simp only [List.map_cons, List.mem_cons, List.mem_map]
        exact Or.inr ⟨y, (List.mem_filter.mp hy).1, hyeq⟩

theorem dedupSpec_oid_nodup : ∀ (n : Nat) (l : List CompositeObject), l.length ≤ n →
    ((dedupSpec l).map (fun o => o.object_id)).Nodup := by
  intro n
  induction n with
  | zero =>
    intro l hl
    have hnil : l = [] := List.length_eq_zero.mp (Nat.le_zero.mp hl)
    subst hnil
    simp [dedupSpec_nil]
  | succ n ih =>
    intro l hl
    match l with
    | [] => simp [dedupSpec_nil]
    | x :: xs =>
      have hxs : xs.length ≤ n := by simp at hl; omega
      have hlen : (xs.filter (fun o => !(o.object_id == x.object_id))).length ≤ n :=
        le_trans (List.length_filter_le _ _) hxs
      rw [dedupSpec_cons]
      simp only [List.map_cons, List.nodup_cons]
      constructor
      · rw [dedupSpec_head_oid]
        intro hc
        simp only [List.mem_map] at hc
        obtain ⟨y, hy, hyeq⟩ := hc
        have hymem := dedupSpec_oid_mem n _ hlen y hy
        simp only [List.mem_map] at hymem
        obtain ⟨z, hz, hzeq⟩ := hymem
        have hzne : z.object_id ≠ x.object_id := by
          simpa using (List.mem_filter.mp hz).2
        exact hzne (by rw [hzeq, hyeq])
      · exact ih _ hlen

/-- C2: the deduplication loop never raises and returns exactly the
claim's description: one entry per object_id at the position of its first
occurrence (order preserved), that first occurrence upgraded in sequence
by each later duplicate according to the M / NGC precedence rule. -/
theorem claim_C2 (l : List CompositeObject) :
    dedup l = Except.ok (dedupSpec l) ∧
      ((dedupSpec l).map (fun o => o.object_id)).Nodup := by
  constructor
  · have h := dedupLoop_spec l [] (by simp)
    simpa [dedup] using h
  · exact dedupSpec_oid_nodup l.length l le_rfl

theorem mem_pyKeys_buildDictAux (q : String) :
    ∀ (cats : List Catalog) (d : List (String × Catalog)),
    q ∈ pyKeys (cats.foldl (fun d c => pyDictUpd d c.catalog_code c) d) ↔
      q ∈ pyKeys d ∨ q ∈ cats.map (fun c => c.catalog_code) := by
  intro cats
  induction cats with
  | nil => intro d; simp
  | cons c cats2 ih =>
    intro d
    simp only [List.foldl_cons, List.map_cons, List.mem_cons]
    rw [ih, pyKeys_pyDictUpd]
    tauto

theorem mem_pyKeys_buildDict (q : String) (cats : List Catalog) :
    q ∈ pyKeys (Catalogs.buildDict cats) ↔
      q ∈ cats.map (fun c => c.catalog_code) := by
  have h := mem_pyKeys_buildDictAux q cats []
  simpa [Catalogs.buildDict, pyKeys] using h

/-- C9: adding a catalog whose code is already in the registry changes
neither the catalog list nor the observable code-to-catalog mapping (the
duplicate is only logged); adding a new code appends it and clears the
cached dict before the next read. -/
theorem claim_C9 (s : Catalogs) (c cNew : Catalog)
    (hinv : s.catalog_dict = [] ∨ s.catalog_dict = Catalogs.buildDict s.catalogs)
    (hdup : c.catalog_code ∈ s.catalogs.map (fun x => x.catalog_code))
    (hnew : cNew.catalog_code ∉ s.catalogs.map (fun x => x.catalog_code)) :
    (Catalogs.add s c).catalogs = s.catalogs ∧
    (Catalogs.get_dict (Catalogs.add s c)).2 = (Catalogs.get_dict s).2 ∧
    (Catalogs.add s cNew).catalogs = s.catalogs ++ [cNew] ∧
    (Catalogs.add s cNew).catalog_dict = [] := by
  by_cases hd : s.catalog_dict = []
  · have hkdup : c.catalog_code ∈ pyKeys (Catalogs.buildDict s.catalogs) :=
      (mem_pyKeys_buildDict _ _).mpr hdup
    have hknew : cNew.catalog_code ∉ pyKeys (Catalogs.buildDict s.catalogs) :=
      fun hc => hnew ((mem_pyKeys_buildDict _ _).mp hc)
    have hDne : Catalogs.buildDict s.catalogs ≠ [] := by
      intro hc
      rw [hc] at hkdup
      simp [pyKeys] at hkdup
    refine ⟨?_, ?_, ?_, ?_⟩
    · simp [Catalogs.add, Catalogs.get_dict, hd, hkdup]
    · simp [Catalogs.add, Catalogs.get_dict, hd, hkdup, hDne]
    · simp [Catalogs.add, Catalogs.get_dict, hd, hknew]
    · simp [Catalogs.add, Catalogs.get_dict, hd, hknew]
  · have hcache : s.catalog_dict = Catalogs.buildDict s.catalogs := hinv.resolve_left hd
    have hkdup : c.catalog_code ∈ pyKeys s.catalog_dict := by
      rw [hcache]; exact (mem_pyKeys_buildDict _ _).mpr hdup
    have hknew : cNew.catalog_code ∉ pyKeys s.catalog_dict := by
      rw [hcache]; exact fun hc => hnew ((mem_pyKeys_buildDict _ _).mp hc)
    refine ⟨?_, ?_, ?_, ?_⟩
    · simp [Catalogs.add, Catalogs.get_dict, hd, hkdup]
    · simp [Catalogs.add, Catalogs.get_dict, hd, hkdup]
    · simp [Catalogs.add, Catalogs.get_dict, hd, hknew]
    · simp [Catalogs.add, Catalogs.get_dict, hd, hknew]

/-- Witness for C9: a registry holding one catalog coded NGC, a duplicate
NGC add and a fresh M add. -/
theorem claim_C9_witness :
    (Catalogs.add ⟨[Catalog.init "NGC" 9999 "d"], []⟩ (Catalog.init "NGC" 1 "x")).catalogs =
      [Catalog.init "NGC" 9999 "d"] ∧
    (Catalogs.get_dict (Catalogs.add ⟨[Catalog.init "NGC" 9999 "d"], []⟩
        (Catalog.init "NGC" 1 "x"))).2 =
      (Catalogs.get_dict ⟨[Catalog.init "NGC" 9999 "d"], []⟩).2 ∧
    (Catalogs.add ⟨[Catalog.init "NGC" 9999 "d"], []⟩ (Catalog.init "M" 110 "y")).catalogs =
      [Catalog.init "NGC" 9999 "d"] ++ [Catalog.init "M" 110 "y"] ∧
    (Catalogs.add ⟨[Catalog.init "NGC" 9999 "d"], []⟩
        (Catalog.init "M" 110 "y")).catalog_dict = [] :=
  claim_C9 ⟨[Catalog.init "NGC" 9999 "d"], []⟩ (Catalog.init "NGC" 1 "x")
    (Catalog.init "M" 110 "y") (Or.inl rfl) (by decide) (by decide)

/-- C8: a non-numeric magnitude never propagates a type or value error out
of apply_filter: the magnitude is locally replaced by 99, so the filter
behaves exactly as on the same object with magnitude 99, and an enabled
magnitude ceiling below 99 rejects the object. -/
theorem claim_C8 (alt : AltFn) (f : CatalogFilter) (obj : CompositeObject)
    (hmag : obj.mag = MagVal.nonNumeric) (m : ℚ)
    (hf : f.magnitude_filter = some m) (hm : m < 99) :
    CatalogFilter.apply_filter alt f obj =
      CatalogFilter.apply_filter alt f { obj with mag := MagVal.num 99 } ∧
    CatalogFilter.apply_filter alt f obj = false := by
  have hrest : CatalogFilter.apply_filter.apply_filter_rest f
      { obj with mag := MagVal.num 99 } =
      CatalogFilter.apply_filter.apply_filter_rest f obj := by
    simp [CatalogFilter.apply_filter.apply_filter_rest]
  constructor
  · simp [CatalogFilter.apply_filter, hmag, hrest]
  · simp [CatalogFilter.apply_filter, hmag, hf, ge_iff_le, hm.le]

/-- Witness for C8: an object with unparseable magnitude against a
magnitude-10 ceiling. -/
theorem claim_C8_witness :
    (CatalogFilter.apply_filter altZero filterMag10 badMagObj =
      CatalogFilter.apply_filter altZero filterMag10
        { badMagObj with mag := MagVal.num 99 } ∧
    CatalogFilter.apply_filter altZero filterMag10 badMagObj = false) :=
  claim_C8 altZero filterMag10 badMagObj rfl 10 rfl (by norm_num)

/-- C4 (code-bug evidence): with a complete sky-position context, the
altitude filter enabled at floor 30 and an object whose computed altitude
is −10, CatalogFilter.apply still returns the object.  The final statement
of apply assigns the None return value of calc_fast_aa back to fast_aa, so
the altitude check of apply_filter never runs; the claim expects the
object to be rejected. -/
theorem claim_C4_bug :
    altFilter30.altitude_filter = some 30 ∧
    ssFull.location.isSome = true ∧ ssFull.datetime.isSome = true ∧
    ssFull.solution.isSome = true ∧
    altNeg { lat := 10, lon := 20, dt := 5 } (sampleObj 1 1 5 "NGC").ra
      (sampleObj 1 1 5 "NGC").dec < 30 ∧
    (CatalogFilter.apply altNeg altFilter30 ssFull [sampleObj 1 1 5 "NGC"]).2 =
      [sampleObj 1 1 5 "NGC"] := by
  refine ⟨rfl, rfl, rfl, rfl, by norm_num [altNeg], ?_⟩
  rfl

/-- C3 (code-bug evidence): every nearest-object query over a non-empty
catalog selection raises AttributeError instead of returning nearest
objects: the flattening step evaluates catalog.filtered_objects.values(),
but Catalog.filtered_objects is a Python list and lists have no attribute
named values (the catalogs parameter path additionally calls the
nonexistent method Catalogs.get).  The claim expects an object placed at
the queried position to be returned first. -/
theorem claim_C3_bug (dist : DistFn) (st : TrackerReg) (ra dec : ℚ) (n : Nat) :
    get_closest_objects dist st ra dec n none = .error .attributeError ∧
    ∀ (k : String) (ks : List String),
      get_closest_objects dist st ra dec n (some (k :: ks)) =
        .error .attributeError := by
  exact ⟨rfl, fun _ _ => rfl⟩

/-- C5 (code-bug evidence): with "PUSH" absent, set_current_catalog
raises TypeError instead of synthesizing the foreign catalog, because
add_foreign_catalog passes four positional arguments to the
three-argument Catalog constructor; with "PUSH" already present the call
succeeds, changes no catalog list, and keeps exactly one "PUSH"
catalog. -/
theorem claim_C5_bug :
    TrackerReg.set_current_catalog regNoPush "PUSH" = .error .typeError ∧
    (TrackerReg.set_current_catalog regWithPush "PUSH").map
        (fun st2 => st2.catalogs.catalogs) = .ok regWithPush.catalogs.catalogs ∧
    (TrackerReg.set_current_catalog regWithPush "PUSH").map
        (fun st2 => st2.current_catalog_name) = .ok "PUSH" ∧
    (TrackerReg.set_current_catalog regWithPush "PUSH").map
        (fun st2 => (st2.catalogs.catalogs.filter
          (fun c => c.catalog_code == "PUSH")).length) = .ok 1 := by
  exact ⟨rfl, rfl, rfl, rfl⟩

theorem heapRead_heapWrite_eq :
    ∀ (h : Heap) (p : Nat), p < h.length → ∀ v, heapRead (heapWrite h p v) p = v := by
  intro h
  induction h with
  | nil => intro p hp; simp at hp
  | cons x hs ih =>
    intro p hp v
    match p with
    | 0 => rfl
    | p + 1 =>
      simp only [heapRead, heapWrite, List.set_cons_succ, List.getD_cons_succ]
      exact ih p (by simpa using hp) v

theorem heapWrite_length (h : Heap) (p : Nat) (v : List CompositeObject) :
    (heapWrite h p v).length = h.length := by
  simp [heapWrite]

theorem heapRead_alloc : ∀ (h : Heap) (v : List CompositeObject),
    heapRead (h ++ [v]) h.length = v := by
  intro h
  induction h with
  | nil => intro v; rfl
  | cons x hs ih =>
    intro v
    simp only [List.cons_append, heapRead, List.length_cons, List.getD_cons_succ]
    exact ih v

theorem applyAdds_read (ops : List AddOp) :
    ∀ (h : Heap) (c : RefCatalog), c.objectsPtr < h.length →
    heapRead (applyAdds h c ops) c.objectsPtr =
      applyAddsPure (heapRead h c.objectsPtr) ops := by
  induction ops with
  | nil => intro h c _; rfl
  | cons op rest ih =>
    intro h c hp
    match op with
    | AddOp.one o =>
      rw [applyAdds, applyAddsPure]
      rw [ih _ c (by rw [refAddObject, heapWrite_length]; exact hp)]
      rw [refAddObject, heapRead_heapWrite_eq _ _ hp]
    | AddOp.many os =>
      rw [applyAdds, applyAddsPure]
      rw [ih _ c (by rw [refAddObjects, heapWrite_length]; exact hp)]
      rw [refAddObjects, heapRead_heapWrite_eq _ _ hp]

theorem applyAdds_ptr_lt (h0 : Heap) :
    (refCatalogInit h0).2.objectsPtr < (refCatalogInit h0).1.length := by
  simp [refCatalogInit, heapAlloc]

/-- C10: right after Catalog construction the name filtered_objects is
bound to the very list object named objects, so through any sequence of
add_object or add_objects calls made before the first filter_objects call
the filtered view stays equal to the full object list, which accumulates
exactly those adds. -/
theorem claim_C10 (h0 : Heap) (ops : List AddOp) :
    heapRead (applyAdds (refCatalogInit h0).1 (refCatalogInit h0).2 ops)
        (refCatalogInit h0).2.filteredPtr =
      heapRead (applyAdds (refCatalogInit h0).1 (refCatalogInit h0).2 ops)
        (refCatalogInit h0).2.objectsPtr ∧
    heapRead (applyAdds (refCatalogInit h0).1 (refCatalogInit h0).2 ops)
        (refCatalogInit h0).2.filteredPtr = applyAddsPure [] ops := by
  constructor
  · rfl
  · rw [show (refCatalogInit h0).2.filteredPtr = (refCatalogInit h0).2.objectsPtr from rfl]
    rw [applyAdds_read ops _ _ (applyAdds_ptr_lt h0)]
    rw [show heapRead (refCatalogInit h0).1 (refCatalogInit h0).2.objectsPtr =
      ([] : List CompositeObject) from heapRead_alloc h0 []]

theorem listIndex_get :
    ∀ (ids : List Nat) (j v : Nat), ids.Nodup → ids.get? j = some v →
    listIndex v ids = j := by
  intro ids
  induction ids with
  | nil => intro j v _ hj; simp [List.get?] at hj
  | cons x xs ih =>
    intro j v hnd hj
    simp only [List.nodup_cons] at hnd
    match j with
    | 0 =>
      have hx : x = v := by simpa [List.get?] using hj
      subst hx
      simp [listIndex]
    | j + 1 =>
      simp only [List.get?] at hj
      have hvx : x ≠ v := by
        intro hc
        subst hc
        exact hnd.1 (List.get?_mem hj)
      rw [listIndex, if_neg hvx, ih j v hnd.2 hj]

theorem set_current_object_some (st : TrackerNav) (n : Nat) :
    TrackerNav.set_current_object st (some n) =
      { st with current_key := some n, designator_number := n } := by
  rw [TrackerNav.set_current_object]
  by_cases h : n = 0 <;> simp [h]

theorem get_current_object_of_mem (st : TrackerNav) (a : CompositeObject)
    (hidx : st.cat.sequence_to_pos = buildPos (fun o => o.sequence) st.cat.objects)
    (hnd : (st.cat.objects.map (fun o => o.sequence)).Nodup)
    (ha : a ∈ st.cat.objects) (hk : st.current_key = some a.sequence) :
    TrackerNav.get_current_object st = .ok (some a) := by
  obtain ⟨j, hj⟩ := List.get?_of_mem ha
  have hl := buildPos_lookup (fun o => o.sequence) st.cat.objects j a hnd hj
  simp only at hl
  have hj2 : st.cat.objects[j]? = some a := by
    rw [← List.get?_eq_getElem?]
    exact hj
  simp [TrackerNav.get_current_object, hk, hidx, hl, hj2]

theorem next_object_finish_some (st : TrackerNav) (a : CompositeObject)
    (hidx : st.cat.sequence_to_pos = buildPos (fun o => o.sequence) st.cat.objects)
    (hnd : (st.cat.objects.map (fun o => o.sequence)).Nodup)
    (ha : a ∈ st.cat.objects) :
    TrackerNav.next_object_finish st (some a.sequence) =
      .ok ({ st with
            current_key := some a.sequence
            designator_number := a.sequence }, some a) := by
  rw [TrackerNav.next_object_finish, set_current_object_some]
  rw [get_current_object_of_mem
    { st with current_key := some a.sequence, designator_number := a.sequence }
    a hidx hnd ha rfl]

theorem next_object_finish_none (st : TrackerNav) :
    TrackerNav.next_object_finish st none =
      .ok ({ st with current_key := none, designator_number := 0 }, none) := rfl

theorem next_object_fresh_eval_head (st : TrackerNav) (ids : List Nat) (v : Nat)
    (h0 : ids.get? 0 = some v) :
    TrackerNav.next_object_fresh st ids 1 =
      TrackerNav.next_object_finish { st with designator_number := v } (some v) := by
  have h02 : ids[0]? = some v := by
    rw [← List.get?_eq_getElem?]
    exact h0
  simp [TrackerNav.next_object_fresh, pyGetInt, h02]

theorem next_object_fresh_eval_last (st : TrackerNav) (ids : List Nat) (v : Nat)
    (hne : ids ≠ []) (hlast : ids.get? (ids.length - 1) = some v) :
    TrackerNav.next_object_fresh st ids (-1) =
      TrackerNav.next_object_finish { st with designator_number := v } (some v) := by
  have hpos : 1 ≤ ids.length := List.length_pos.mpr hne
  have htn : ((ids.length : Int) - 1).toNat = ids.length - 1 := by omega
  simp only [TrackerNav.next_object_fresh]
  rw [if_neg (by norm_num : ¬((-1 : Int) = 1))]
  rw [pyGetInt]
  rw [if_pos (by omega : (0 : Int) ≤ (ids.length : Int) - 1)]
  rw [htn, hlast]

/-- C1: over a non-empty active list (filtered when filtered=true, full
otherwise) with well-formed indices, next_object jumps to the first
(direction 1) or last (direction −1) object when nothing valid is tracked,
and from the last (first) object a further forward (backward) step clears
the tracked object, resets the designator number to 0 and returns none
instead of wrapping. -/
theorem claim_C1 (st : TrackerNav) (filtered : Bool)
    (hsub : st.cat.filtered_objects.Sublist st.cat.objects)
    (hnd : (st.cat.objects.map (fun o => o.sequence)).Nodup)
    (hidx : st.cat.sequence_to_pos = buildPos (fun o => o.sequence) st.cat.objects) :
    ((∀ k, st.current_key = some k →
        k ∉ (if filtered then st.cat.filtered_objects else st.cat.objects).map
          (fun o => o.sequence)) →
      (∀ a, (if filtered then st.cat.filtered_objects else st.cat.objects).head? =
          some a →
        TrackerNav.next_object st 1 filtered =
          .ok ({ st with
            current_key := some a.sequence
            designator_number := a.sequence }, some a)) ∧
      (∀ a, (if filtered then st.cat.filtered_objects else st.cat.objects).getLast? =
          some a →
        TrackerNav.next_object st (-1) filtered =
          .ok ({ st with
            current_key := some a.sequence
            designator_number := a.sequence }, some a))) ∧
    (∀ a, (if filtered then st.cat.filtered_objects else st.cat.objects).getLast? =
        some a → st.current_key = some a.sequence →
      TrackerNav.next_object st 1 filtered =
        .ok ({ st with current_key := none, designator_number := 0 }, none)) ∧
    (∀ a, (if filtered then st.cat.filtered_objects else st.cat.objects).head? =
        some a → st.current_key = some a.sequence →
      TrackerNav.next_object st (-1) filtered =
        .ok ({ st with current_key := none, designator_number := 0 }, none)) := by
  have hmemsub : ∀ x ∈ (if filtered then st.cat.filtered_objects else st.cat.objects),
      x ∈ st.cat.objects := by
    cases filtered
    · simp
    · simpa using fun x hx => hsub.subset hx
  have hndids : (((if filtered then st.cat.filtered_objects else st.cat.objects)).map
      (fun o => o.sequence)).Nodup := by
    cases filtered
    · simpa using hnd
    · simpa using hnd.sublist (hsub.map (fun o => o.sequence))
  refine ⟨?_, ?_, ?_⟩
  · intro hno
    constructor
    · intro a hhead
      have hmema : a ∈ (if filtered then st.cat.filtered_objects else st.cat.objects) := by
        rw [← List.get?_zero] at hhead
        exact List.get?_mem hhead
      have hg0 : ((if filtered then st.cat.filtered_objects else st.cat.objects).map
          (fun o => o.sequence)).get? 0 = some a.sequence := by
        rw [List.get?_map, List.get?_zero, hhead]
        rfl
      cases hck : st.current_key with
      | none =>
        simp only [TrackerNav.next_object, hck]
        rw [next_object_fresh_eval_head _ _ _ hg0]
        exact next_object_finish_some _ a hidx hnd (hmemsub a hmema)
      | some k =>
        simp only [TrackerNav.next_object, hck]
        rw [if_neg (hno k hck)]
        rw [next_object_fresh_eval_head _ _ _ hg0]
        exact next_object_finish_some _ a hidx hnd (hmemsub a hmema)
    · intro a hlast
      have hne : (if filtered then st.cat.filtered_objects else st.cat.objects) ≠ [] := by
        intro hc
        rw [hc] at hlast
        simp at hlast
      have hglast : ((if filtered then st.cat.filtered_objects else st.cat.objects).map
          (fun o => o.sequence)).get?
          (((if filtered then st.cat.filtered_objects else st.cat.objects).map
            (fun o => o.sequence)).length - 1) = some a.sequence := by
        rw [List.get?_map, List.length_map, ← List.getLast?_eq_get?, hlast]
        rfl
      have hmema : a ∈ (if filtered then st.cat.filtered_objects else st.cat.objects) := by
        rw [List.getLast?_eq_get?] at hlast
        exact List.get?_mem hlast
      have hnemap : ((if filtered then st.cat.filtered_objects else st.cat.objects).map
          (fun o => o.sequence)) ≠ [] := by
        simpa using hne
      cases hck : st.current_key with
      | none =>
        simp only [TrackerNav.next_object, hck]
        rw [next_object_fresh_eval_last _ _ _ hnemap hglast]
        exact next_object_finish_some _ a hidx hnd (hmemsub a hmema)
      | some k =>
        simp only [TrackerNav.next_object, hck]
        rw [if_neg (hno k hck)]
        rw [next_object_fresh_eval_last _ _ _ hnemap hglast]
        exact next_object_finish_some _ a hidx hnd (hmemsub a hmema)
  · intro a hlast hck
    have hmema : a ∈ (if filtered then st.cat.filtered_objects else st.cat.objects) := by
      rw [List.getLast?_eq_get?] at hlast
      exact List.get?_mem hlast
    have hkin : a.sequence ∈ ((if filtered then st.cat.filtered_objects
        else st.cat.objects).map (fun o => o.sequence)) :=
      List.mem_map_of_mem _ hmema
    have hglast : ((if filtered then st.cat.filtered_objects else st.cat.objects).map
        (fun o => o.sequence)).get?
        (((if filtered then st.cat.filtered_objects else st.cat.objects).map
          (fun o => o.sequence)).length - 1) = some a.sequence := by
      rw [List.get?_map, List.length_map, ← List.getLast?_eq_get?, hlast]
      rfl
    have hlen : 1 ≤ ((if filtered then st.cat.filtered_objects
        else st.cat.objects).map (fun o => o.sequence)).length :=
      List.length_pos.mpr (fun hc => by rw [hc] at hkin; simp at hkin)
    have hli := listIndex_get _ _ _ hndids hglast
    simp only [TrackerNav.next_object, hck]
    rw [if_pos hkin, hli]
    rw [if_pos (Or.inr (by omega))]
    exact next_object_finish_none _
  · intro a hhead hck
    have hg0 : ((if filtered then st.cat.filtered_objects else st.cat.objects).map
        (fun o => o.sequence)).get? 0 = some a.sequence := by
      rw [List.get?_map, List.get?_zero, hhead]
      rfl
    have hmema : a ∈ (if filtered then st.cat.filtered_objects else st.cat.objects) := by
      rw [← List.get?_zero] at hhead
      exact List.get?_mem hhead
    have hkin : a.sequence ∈ ((if filtered then st.cat.filtered_objects
        else st.cat.objects).map (fun o => o.sequence)) :=
      List.mem_map_of_mem _ hmema
    have hli := listIndex_get _ _ _ hndids hg0
    simp only [TrackerNav.next_object, hck]
    rw [if_pos hkin, hli]
    rw [if_pos (Or.inl (by norm_num))]
    exact next_object_finish_none _

/-- Witness for C1: on the filtered list with sequences 5, 12, 47, a
forward step with nothing tracked lands on sequence 5, and a forward step
from sequence 47 clears the tracked object instead of wrapping. -/
theorem claim_C1_witness :
    (TrackerNav.next_object navA 1 true =
      .ok ({ navA with
        current_key := some (sampleObj 1 1 5 "NGC").sequence
        designator_number := (sampleObj 1 1 5 "NGC").sequence },
        some (sampleObj 1 1 5 "NGC"))) ∧
    (TrackerNav.next_object navB 1 true =
      .ok ({ navB with current_key := none, designator_number := 0 }, none)) :=
  ⟨((claim_C1 navA true (List.Sublist.refl _) (by decide) rfl).1
      (fun _ hk => Option.noConfusion hk)).1 (sampleObj 1 1 5 "NGC") rfl,
   (claim_C1 navB true (List.Sublist.refl _) (by decide) rfl).2.1
      (sampleObj 3 3 47 "NGC") rfl rfl⟩

/-- Witness for C6 at width 4 and the keypad sequence 1,2,3,4,5. -/
theorem claim_C6_witness :
    (CatalogDesignator.init "NGC" 9999).width = 4 ∧
    (pyRepr ((CatalogDesignator.init "NGC" 9999).append_all
        [1, 2, 3, 4, 5]).object_number).length ≤
      (CatalogDesignator.init "NGC" 9999).width ∧
    ((CatalogDesignator.init "NGC" 9999).append_all [1, 2, 3, 4, 5]).object_number = 2345 :=
  claim_C6 "NGC" 9999 [1, 2, 3, 4, 5] (by decide)

end PiFinder
